import Mathlib

/-!
Verification development for the u-forge.ai knowledge-graph core.

This file gives a shallow embedding, in Lean 4, of the parts of the Rust
source that the specification claims talk about:

* `src/backend/src/storage.rs` — the RocksDB-backed graph store
  (`KnowledgeGraphStorage` and its operations).  The key-value store is
  modelled as association lists, one per column family; a RocksDB
  `WriteBatch` applies its operations in insertion order, which the
  embedded operations reproduce (in particular a `put` issued after a
  `delete` on the same key leaves the `put` value in place).
* `src/src/vector_search.rs` — the text-preview computation in `add_chunk`.
* `src/backend/src/embedding_queue.rs` — the request-status lifecycle of
  the background embedding queue.
* `src/src/schema_manager.rs` / `src/src/schema.rs` — object validation
  against a schema.

Identifiers (UUIDs) are modelled as `Nat`; `EdgeType` and `ObjectType`
are modelled by their string form (`as_str`), which is how the storage
layer compares them; timestamps are modelled as `Nat`; `f32`/`f64`
numeric fields are modelled as `ℚ` (the claims under study never depend
on floating-point rounding).
-/

/-- JSON values (`serde_json::Value`).  Numbers are modelled as `ℚ`. -/
inductive Json where
  | null : Json
  | bool (b : Bool) : Json
  | num (q : ℚ) : Json
  | str (s : String) : Json
  | arr (elems : List Json) : Json
  | obj (entries : List (String × Json)) : Json

/-- The `as_object` view of a JSON value (`serde_json::Value::as_object`). -/
def Json.asObject : Json → Option (List (String × Json))
  | .obj entries => some entries
  | _ => none

/-- An edge of the knowledge graph (`types.rs`, `struct Edge`).  `from` is a
Lean keyword, so the field is called `from_`. -/
structure Edge where
  from_ : Nat
  to_ : Nat
  edge_type : String
  weight : ℚ
  created_at : Nat
  metadata : List (String × String)
deriving DecidableEq, Repr

/-- `Edge::new` — weight defaults to `1.0`, metadata empty; the creation
timestamp is modelled as `0`. -/
def Edge.new (from_ to_ : Nat) (edge_type : String) : Edge :=
  { from_ := from_, to_ := to_, edge_type := edge_type,
    weight := 1, created_at := 0, metadata := [] }

/-- Chunk kinds (`types.rs`, `enum ChunkType`). -/
inductive ChunkType where
  | description | sessionNote | aiGenerated | userNote | imported
deriving DecidableEq, Repr

/-- A text chunk (`types.rs`, `struct TextChunk`). -/
structure TextChunk where
  id : Nat
  object_id : Nat
  content : String
  token_count : Nat
  created_at : Nat
  chunk_type : ChunkType
deriving DecidableEq, Repr

/-- Object metadata (`types.rs`, `struct ObjectMetadata`).  `object_type`
is a plain string in the source. -/
structure ObjectMetadata where
  id : Nat
  object_type : String
  schema_name : Option String
  name : String
  description : Option String
  created_at : Nat
  updated_at : Nat
  tags : List String
  properties : Json

/-- A per-node adjacency record (`storage.rs`, `struct AdjacencyList`). -/
structure AdjacencyList where
  outgoing : List Edge
  incoming : List Edge
deriving DecidableEq, Repr

/-- `AdjacencyList::new`. -/
def AdjacencyList.new : AdjacencyList := { outgoing := [], incoming := [] }

/-- Lookup in a column family modelled as an association list
(`db.get_cf`). -/
def kvGet {κ ν : Type} [DecidableEq κ] : List (κ × ν) → κ → Option ν
  | [], _ => none
  | p :: rest, k => if p.1 = k then some p.2 else kvGet rest k

/-- Point write into a column family (`put_cf`): replaces the value stored
under the key, or appends a fresh record. -/
def kvPut {κ ν : Type} [DecidableEq κ] : List (κ × ν) → κ → ν → List (κ × ν)
  | [], k, v => [(k, v)]
  | p :: rest, k, v => if p.1 = k then (k, v) :: rest else p :: kvPut rest k v

/-- Point delete from a column family (`delete_cf`). -/
def kvDelete {κ ν : Type} [DecidableEq κ] (l : List (κ × ν)) (k : κ) : List (κ × ν) :=
  l.filter (fun p => !(decide (p.1 = k)))

/-- The persisted state of the store: one association list per column
family used by the graph claims (`nodes`, `chunks`, `edges`, `names`).
Node and adjacency keys are the 16-byte object ids, modelled as `Nat`;
name keys are the composite strings `"{object_type}:{name}"`. -/
structure KnowledgeGraphStorage where
  nodes : List (Nat × ObjectMetadata)
  chunks : List (Nat × TextChunk)
  edges : List (Nat × AdjacencyList)
  names : List (String × Nat)

namespace KnowledgeGraphStorage

/-- The freshly opened, empty store. -/
def empty : KnowledgeGraphStorage := { nodes := [], chunks := [], edges := [], names := [] }

/-- `upsert_node` — one atomic batch writing the node record and the
name-index record `"{object_type}:{name}" → id`. -/
def upsert_node (s : KnowledgeGraphStorage) (metadata : ObjectMetadata) : KnowledgeGraphStorage :=
  { s with
    nodes := kvPut s.nodes metadata.id metadata,
    names := kvPut s.names (metadata.object_type ++ ":" ++ metadata.name) metadata.id }

/-- `get_node` — direct lookup in the `nodes` column family. -/
def get_node (s : KnowledgeGraphStorage) (id : Nat) : Option ObjectMetadata :=
  kvGet s.nodes id

/-- `find_nodes_by_name` — consult the `names` column family under the
composite key, then hydrate the (at most one) id found. -/
def find_nodes_by_name (s : KnowledgeGraphStorage) (object_type name : String) :
    List ObjectMetadata :=
  match kvGet s.names (object_type ++ ":" ++ name) with
  | some id =>
      match get_node s id with
      | some metadata => [metadata]
      | none => []
  | none => []

/-- `get_adjacency_list` — lookup in the `edges` column family. -/
def get_adjacency_list (s : KnowledgeGraphStorage) (node_id : Nat) : Option AdjacencyList :=
  kvGet s.edges node_id

/-- `upsert_edge` — read both endpoints' adjacency records (defaulting to
empty), drop any existing record with the same `(to, edge_type)` from the
source's outgoing list and the same `(from, edge_type)` from the target's
incoming list, push the new edge into each, and write both records in one
batch: first the `from` record, then the `to` record (so for a self-loop
the second `put` overwrites the first, exactly as a RocksDB `WriteBatch`
does). -/
def upsert_edge (s : KnowledgeGraphStorage) (edge : Edge) : KnowledgeGraphStorage :=
  let from_adj := (s.get_adjacency_list edge.from_).getD AdjacencyList.new
  let to_adj := (s.get_adjacency_list edge.to_).getD AdjacencyList.new
  let from_adj :=
    { from_adj with
      outgoing :=
        from_adj.outgoing.filter
          (fun e => !(decide (e.to_ = edge.to_) && decide (e.edge_type = edge.edge_type)))
          ++ [edge] }
  let to_adj :=
    { to_adj with
      incoming :=
        to_adj.incoming.filter
          (fun e => !(decide (e.from_ = edge.from_) && decide (e.edge_type = edge.edge_type)))
          ++ [edge] }
  { s with edges := kvPut (kvPut s.edges edge.from_ from_adj) edge.to_ to_adj }

/-- `get_edges` — outgoing then incoming from the node's adjacency record;
empty when there is no record. -/
def get_edges (s : KnowledgeGraphStorage) (node_id : Nat) : List Edge :=
  match s.get_adjacency_list node_id with
  | some adj => adj.outgoing ++ adj.incoming
  | none => []

/-- Removal of consecutive duplicates, as `Vec::dedup` does. -/
def dedupAdj : List Nat → List Nat
  | [] => []
  | [a] => [a]
  | a :: b :: l => if a = b then dedupAdj (b :: l) else a :: dedupAdj (b :: l)

/-- `get_neighbors` — `outgoing.to` then `incoming.from`, sorted
(`Vec::sort` is a stable sort) and deduplicated (`Vec::dedup` removes
consecutive duplicates). -/
def get_neighbors (s : KnowledgeGraphStorage) (node_id : Nat) : List Nat :=
  match s.get_adjacency_list node_id with
  | some adj =>
      dedupAdj
        (List.insertionSort (· ≤ ·)
          (adj.outgoing.map (·.to_) ++ adj.incoming.map (·.from_)))
  | none => []

/-- `upsert_chunk` — a single put keyed by the chunk id. -/
def upsert_chunk (s : KnowledgeGraphStorage) (chunk : TextChunk) : KnowledgeGraphStorage :=
  { s with chunks := kvPut s.chunks chunk.id chunk }

/-- `get_chunks_for_node` — full iteration of the `chunks` column family,
filtering by owning object id. -/
def get_chunks_for_node (s : KnowledgeGraphStorage) (node_id : Nat) : List TextChunk :=
  (s.chunks.map (·.2)).filter (fun c => decide (c.object_id = node_id))

/-- Graph statistics (`storage.rs`, `struct GraphStats`). -/
structure GraphStats where
  node_count : Nat
  edge_count : Nat
  chunk_count : Nat
  total_tokens : Nat
deriving DecidableEq, Repr

/-- `get_stats` — counts of the `nodes` and `chunks` records, the sum of
the outgoing-list lengths over all adjacency records, and the sum of the
chunk token counts, each computed by iteration exactly as the source
does. -/
def get_stats (s : KnowledgeGraphStorage) : GraphStats :=
  { node_count := s.nodes.length,
    chunk_count := s.chunks.length,
    edge_count := s.edges.foldl (fun acc p => acc + p.2.outgoing.length) 0,
    total_tokens := s.chunks.foldl (fun acc p => acc + p.2.token_count) 0 }

end KnowledgeGraphStorage

/-- Traversal result (`types.rs`, `struct QueryResult`). -/
structure QueryResult where
  objects : List ObjectMetadata
  edges : List Edge
  chunks : List TextChunk
  total_tokens : Nat

/-- `QueryResult::new`. -/
def QueryResult.new : QueryResult :=
  { objects := [], edges := [], chunks := [], total_tokens := 0 }

/-- `QueryResult::add_object`. -/
def QueryResult.add_object (r : QueryResult) (object : ObjectMetadata) : QueryResult :=
  { r with objects := r.objects ++ [object] }

/-- `QueryResult::add_edge`. -/
def QueryResult.add_edge (r : QueryResult) (edge : Edge) : QueryResult :=
  { r with edges := r.edges ++ [edge] }

/-- `QueryResult::add_chunk` — also accumulates `total_tokens`. -/
def QueryResult.add_chunk (r : QueryResult) (chunk : TextChunk) : QueryResult :=
  { r with chunks := r.chunks ++ [chunk], total_tokens := r.total_tokens + chunk.token_count }

namespace KnowledgeGraphStorage

/-- The body of `query_subgraph`'s loop over one frontier node: skip it if
visited, mark visited, append its metadata, append every edge of its
adjacency record (collecting unseen endpoints into the next frontier),
append its chunks. -/
def subgraphVisit (s : KnowledgeGraphStorage)
    (acc : QueryResult × List Nat × List Nat) (node_id : Nat) :
    QueryResult × List Nat × List Nat :=
  let (result, visited, next_nodes) := acc
  if node_id ∈ visited then (result, visited, next_nodes)
  else
    let visited := node_id :: visited
    let result :=
      match s.get_node node_id with
      | some metadata => result.add_object metadata
      | none => result
    let step := (s.get_edges node_id).foldl
      (fun (a : QueryResult × List Nat) edge =>
        let a := (a.1.add_edge edge, a.2)
        let a := if edge.to_ ∈ visited then a else (a.1, a.2 ++ [edge.to_])
        if edge.from_ ∈ visited then a else (a.1, a.2 ++ [edge.from_]))
      (result, next_nodes)
    let result := (s.get_chunks_for_node node_id).foldl QueryResult.add_chunk step.1
    (result, visited, step.2)

/-- One iteration of `query_subgraph`'s hop loop: process the whole
current frontier. -/
def subgraphHop (s : KnowledgeGraphStorage) (result : QueryResult)
    (visited current : List Nat) : QueryResult × List Nat × List Nat :=
  current.foldl (subgraphVisit s) (result, visited, [])

/-- The hop loop of `query_subgraph`: `fuel` is the number of remaining
iterations of `for _hop in 0..=max_hops`; the loop stops early when the
next frontier is empty. -/
def query_subgraphAux (s : KnowledgeGraphStorage) :
    Nat → QueryResult → List Nat → List Nat → QueryResult
  | 0, result, _, _ => result
  | fuel + 1, result, visited, current =>
      let (result, visited, next) := subgraphHop s result visited current
      if next.isEmpty then result
      else query_subgraphAux s fuel result visited next

/-- `query_subgraph` — breadth-first expansion from `start_node` for at
most `max_hops + 1` frontier rounds. -/
def query_subgraph (s : KnowledgeGraphStorage) (start_node : Nat) (max_hops : Nat) :
    QueryResult :=
  query_subgraphAux s (max_hops + 1) QueryResult.new [] [start_node]

/-- `delete_node` — a single atomic batch: drop the name-index record (if
the node is still readable), the node record, the node's own adjacency
record, and the node's chunks; then iterate every adjacency record of the
pre-delete state, retain only edges whose other endpoint is not the
deleted id, and re-`put` every record that shrank.  The batch applies its
operations in order, so a re-`put` of the deleted node's own key lands
after the `delete` of that key and wins. -/
def delete_node (s : KnowledgeGraphStorage) (node_id : Nat) : KnowledgeGraphStorage :=
  let names1 :=
    match s.get_node node_id with
    | some metadata => kvDelete s.names (metadata.object_type ++ ":" ++ metadata.name)
    | none => s.names
  let nodes1 := kvDelete s.nodes node_id
  let chunks1 :=
    (s.get_chunks_for_node node_id).foldl (fun acc c => kvDelete acc c.id) s.chunks
  let edges1 := kvDelete s.edges node_id
  let edges2 := s.edges.foldl
    (fun (acc : List (Nat × AdjacencyList)) p =>
      let adj := p.2
      let original_len := adj.outgoing.length + adj.incoming.length
      let outgoing := adj.outgoing.filter (fun e => !(decide (e.to_ = node_id)))
      let incoming := adj.incoming.filter (fun e => !(decide (e.from_ = node_id)))
      if outgoing.length + incoming.length < original_len then
        kvPut acc p.1 { outgoing := outgoing, incoming := incoming }
      else acc)
    edges1
  { nodes := nodes1, chunks := chunks1, edges := edges2, names := names1 }

end KnowledgeGraphStorage

/-! ## Key-value lemmas -/

theorem kvGet_kvPut_self {κ ν : Type} [DecidableEq κ] (l : List (κ × ν)) (k : κ) (v : ν) :
    kvGet (kvPut l k v) k = some v := by
  induction l with
  | nil => simp [kvPut, kvGet]
  | cons p rest ih =>
    by_cases h : p.1 = k
    · simp [kvPut, kvGet, h]
    · simp [kvPut, kvGet, h, ih]

theorem kvGet_kvPut_ne {κ ν : Type} [DecidableEq κ] (l : List (κ × ν)) (k k' : κ) (v : ν)
    (h : k' ≠ k) : kvGet (kvPut l k v) k' = kvGet l k' := by
  have hkk' : ¬ k = k' := fun hh => h hh.symm
  induction l with
  | nil => simp [kvPut, kvGet, hkk']
  | cons p rest ih =>
    by_cases hp : p.1 = k
    · have hpk' : ¬ p.1 = k' := by rw [hp]; exact hkk'
      simp [kvPut, kvGet, hp, hpk', hkk']
    · by_cases hp' : p.1 = k'
      · simp [kvPut, kvGet, hp, hp', h]
      · simp [kvPut, kvGet, hp, hp', ih]

theorem foldl_add_map {α : Type} (f : α → Nat) (l : List α) (n : Nat) :
    l.foldl (fun acc p => acc + f p) n = n + (l.map f).sum := by
  induction l generalizing n with
  | nil => simp
  | cons a t ih => simp [ih, Nat.add_assoc]

/-! ## Helper objects for concrete scenarios -/

/-- A bare object as `ObjectMetadata::new` produces it (fresh id modelled
explicitly, timestamps 0, no tags, empty JSON properties). -/
def mkObject (id : Nat) (object_type name : String) : ObjectMetadata :=
  { id := id, object_type := object_type, schema_name := none, name := name,
    description := none, created_at := 0, updated_at := 0, tags := [],
    properties := .obj [] }

namespace KnowledgeGraphStorage

/-- The scenario of claim C5: three characters `A`=1, `B`=2, `C`=3 with
edges `(A,B,"knows")` and `(B,C,"ally_of")` and no chunks. -/
def threeNodeState : KnowledgeGraphStorage :=
  upsert_edge
    (upsert_edge
      (upsert_node
        (upsert_node (upsert_node empty (mkObject 1 "character" "A"))
          (mkObject 2 "character" "B"))
        (mkObject 3 "character" "C"))
      (Edge.new 1 2 "knows"))
    (Edge.new 2 3 "ally_of")

/-- C5: on the three-object graph A—B—C with edges (A,B,"knows") and
(B,C,"ally_of") and no chunks, `query_subgraph(A, 2)` returns the objects
A, B, C (in breadth-first order, so as a set `{A, B, C}`), an edge list of
exactly 4 entries — each of the two physical edges once via each
endpoint's adjacency list, duplicates preserved — and no chunks. -/
theorem query_subgraph_three_node_scenario :
    (query_subgraph threeNodeState 1 2).objects.map (fun o => o.id) = [1, 2, 3] ∧
    (query_subgraph threeNodeState 1 2).edges.map
        (fun e => (e.from_, e.to_, e.edge_type)) =
      [(1, 2, "knows"), (2, 3, "ally_of"), (1, 2, "knows"), (2, 3, "ally_of")] ∧
    (query_subgraph threeNodeState 1 2).edges.length = 4 ∧
    (query_subgraph threeNodeState 1 2).chunks = [] := by
  exact ⟨rfl, rfl, rfl, rfl⟩

/-- C2 (divergence witness): a self-loop upsert breaks the adjacency
invariant.  `upsert_edge` reads two copies of the same adjacency record
for a self-loop `(1,1,"knows")` and writes both back in one batch; the
second `put` (the incoming side) overwrites the first, so the edge ends
up in node 1's incoming list but not in its outgoing list — refuting "E
appears in u's outgoing list iff E appears in v's incoming list" at u = v. -/
theorem upsert_edge_self_loop_asymmetric :
    Edge.new 1 1 "knows" ∈
        (((upsert_edge empty (Edge.new 1 1 "knows")).get_adjacency_list 1).getD
          AdjacencyList.new).incoming ∧
      Edge.new 1 1 "knows" ∉
        (((upsert_edge empty (Edge.new 1 1 "knows")).get_adjacency_list 1).getD
          AdjacencyList.new).outgoing ∧
      ¬ (Edge.new 1 1 "knows" ∈
            (((upsert_edge empty (Edge.new 1 1 "knows")).get_adjacency_list 1).getD
              AdjacencyList.new).outgoing ↔
          Edge.new 1 1 "knows" ∈
            (((upsert_edge empty (Edge.new 1 1 "knows")).get_adjacency_list 1).getD
              AdjacencyList.new).incoming) := by
  decide

/-- The scenario refuting claim C1: nodes Gandalf (id 1) and Frodo (id 2),
a regular edge `(1,2,"knows")` and a self-loop `(1,1,"self")`, then
`delete_node(1)`. -/
def deleteScenarioState : KnowledgeGraphStorage :=
  delete_node
    (upsert_edge
      (upsert_edge
        (upsert_node (upsert_node empty (mkObject 1 "character" "Gandalf"))
          (mkObject 2 "character" "Frodo"))
        (Edge.new 1 2 "knows"))
      (Edge.new 1 1 "self"))
    1

/-- C1 (divergence witness): after `delete_node(1)` on the scenario state,
the node record and name-index entry are gone and Frodo's adjacency list
is clean — but the deleted node's own adjacency record SURVIVES and still
contains the edge `(1,2,"knows")`, whose `from` endpoint is the deleted
id.  The cleanup loop shrank the record (the self-loop's incoming entry
was retained away) and re-`put` it into the same batch after the `delete`
of that key, so the `put` wins.  This refutes "no surviving adjacency
record contains id as either endpoint". -/
theorem delete_node_retains_self_record :
    get_node deleteScenarioState 1 = none ∧
    find_nodes_by_name deleteScenarioState "character" "Gandalf" = [] ∧
    get_edges deleteScenarioState 2 = [] ∧
    get_adjacency_list deleteScenarioState 1 =
      some { outgoing := [Edge.new 1 2 "knows"], incoming := [] } ∧
    (Edge.new 1 2 "knows").from_ = 1 := by
  exact ⟨rfl, rfl, rfl, rfl, rfl⟩

/-! ## C6: idempotence of `upsert_edge` -/

/-- The predicate "matches `(edge.to, edge.edge_type)`" used on outgoing
lists. -/
def matchOut (edge e : Edge) : Bool :=
  decide (e.to_ = edge.to_) && decide (e.edge_type = edge.edge_type)

/-- The predicate "matches `(edge.from, edge.edge_type)`" used on incoming
lists. -/
def matchIn (edge e : Edge) : Bool :=
  decide (e.from_ = edge.from_) && decide (e.edge_type = edge.edge_type)

theorem countP_filter_not {α : Type} (p : α → Bool) (l : List α) :
    (l.filter (fun a => !(p a))).countP p = 0 := by
  rw [List.countP_eq_zero]
  intro a ha
  have := List.of_mem_filter ha
  simpa using this

/-- After a single `upsert_edge` of a non-self-loop edge, from any prior
state, the source's outgoing list has exactly one entry matching
`(to, edge_type)` and the target's incoming list exactly one matching
`(from, edge_type)`. -/
theorem upsert_edge_count_one (s : KnowledgeGraphStorage) (edge : Edge)
    (h : edge.from_ ≠ edge.to_) :
    (((upsert_edge s edge).get_adjacency_list edge.from_).getD
        AdjacencyList.new).outgoing.countP (matchOut edge) = 1 ∧
    (((upsert_edge s edge).get_adjacency_list edge.to_).getD
        AdjacencyList.new).incoming.countP (matchIn edge) = 1 := by
  constructor
  · show (kvGet (kvPut (kvPut s.edges edge.from_ _) edge.to_ _) edge.from_
      |>.getD AdjacencyList.new).outgoing.countP (matchOut edge) = 1
    rw [kvGet_kvPut_ne _ _ _ _ h, kvGet_kvPut_self]
    show (_ ++ [edge]).countP (matchOut edge) = 1
    rw [List.countP_append]
    have h0 : (((s.get_adjacency_list edge.from_).getD AdjacencyList.new).outgoing.filter
        (fun e => !(decide (e.to_ = edge.to_) && decide (e.edge_type = edge.edge_type)))).countP
        (matchOut edge) = 0 := countP_filter_not (matchOut edge) _
    rw [show (fun e => !(decide (e.to_ = edge.to_) && decide (e.edge_type = edge.edge_type)))
        = (fun e => !(matchOut edge e)) from rfl] at *
    rw [h0]
    simp [matchOut]
  · show (kvGet (kvPut (kvPut s.edges edge.from_ _) edge.to_ _) edge.to_
      |>.getD AdjacencyList.new).incoming.countP (matchIn edge) = 1
    rw [kvGet_kvPut_self]
    show (_ ++ [edge]).countP (matchIn edge) = 1
    rw [List.countP_append]
    have h0 : (((s.get_adjacency_list edge.to_).getD AdjacencyList.new).incoming.filter
        (fun e => !(decide (e.from_ = edge.from_) && decide (e.edge_type = edge.edge_type)))).countP
        (matchIn edge) = 0 := countP_filter_not (matchIn edge) _
    rw [h0]
    simp [matchIn]

/-- C6 (counterexample): for the self-loop edge `(1,1,"knows")`, two
upserts leave NO entry matching `(to, edge_type)` in the node's outgoing
list (the second batch `put` clobbers the outgoing side), refuting
"exactly one entry in each relevant adjacency list" as stated for every
edge. -/
theorem upsert_edge_twice_self_loop_no_outgoing_entry :
    ¬ ((((upsert_edge (upsert_edge empty (Edge.new 1 1 "knows")) (Edge.new 1 1 "knows"))
            |>.get_adjacency_list 1).getD AdjacencyList.new).outgoing.countP
          (matchOut (Edge.new 1 1 "knows")) = 1 ∧
        (((upsert_edge (upsert_edge empty (Edge.new 1 1 "knows")) (Edge.new 1 1 "knows"))
            |>.get_adjacency_list 1).getD AdjacencyList.new).incoming.countP
          (matchIn (Edge.new 1 1 "knows")) = 1) := by
  decide

/-- C6 (amended): for every edge `e` with `e.from ≠ e.to` and every prior
state, `upsert_edge(e); upsert_edge(e)` leaves exactly one entry matching
`(e.to, e.edge_type)` in `e.from`'s outgoing list and exactly one entry
matching `(e.from, e.edge_type)` in `e.to`'s incoming list; the single
upsert already leaves exactly one such entry in each list, so an upsert
of an existing triple replaces the record rather than adding a second. -/
theorem upsert_edge_idempotent_non_self_loop (s : KnowledgeGraphStorage) (edge : Edge)
    (h : edge.from_ ≠ edge.to_) :
    ((((upsert_edge (upsert_edge s edge) edge).get_adjacency_list edge.from_).getD
        AdjacencyList.new).outgoing.countP (matchOut edge) = 1 ∧
      (((upsert_edge (upsert_edge s edge) edge).get_adjacency_list edge.to_).getD
        AdjacencyList.new).incoming.countP (matchIn edge) = 1) ∧
    ((((upsert_edge s edge).get_adjacency_list edge.from_).getD
        AdjacencyList.new).outgoing.countP (matchOut edge) = 1 ∧
      (((upsert_edge s edge).get_adjacency_list edge.to_).getD
        AdjacencyList.new).incoming.countP (matchIn edge) = 1) :=
  ⟨upsert_edge_count_one (upsert_edge s edge) edge h, upsert_edge_count_one s edge h⟩

/-- Witness for the amended C6 theorem at the concrete edge `(1,2,"knows")`
over the empty store. -/
theorem upsert_edge_idempotent_non_self_loop_witness :
    (Edge.new 1 2 "knows").from_ ≠ (Edge.new 1 2 "knows").to_ ∧
    ((((upsert_edge (upsert_edge empty (Edge.new 1 2 "knows")) (Edge.new 1 2 "knows"))
          |>.get_adjacency_list (Edge.new 1 2 "knows").from_).getD
        AdjacencyList.new).outgoing.countP (matchOut (Edge.new 1 2 "knows")) = 1 ∧
      (((upsert_edge (upsert_edge empty (Edge.new 1 2 "knows")) (Edge.new 1 2 "knows"))
          |>.get_adjacency_list (Edge.new 1 2 "knows").to_).getD
        AdjacencyList.new).incoming.countP (matchIn (Edge.new 1 2 "knows")) = 1) :=
  ⟨by decide,
    (upsert_edge_idempotent_non_self_loop empty (Edge.new 1 2 "knows") (by decide)).1⟩

/-- C8: `get_stats` returns the number of node records, the number of
chunk records, and an edge count equal to the sum, over all adjacency
records, of the lengths of their outgoing lists (each physical edge is
stored in exactly one outgoing list, so it is counted once). -/
theorem get_stats_spec (s : KnowledgeGraphStorage) :
    (get_stats s).edge_count = (s.edges.map (fun p => p.2.outgoing.length)).sum ∧
    (get_stats s).node_count = s.nodes.length ∧
    (get_stats s).chunk_count = s.chunks.length := by
  refine ⟨?_, rfl, rfl⟩
  show s.edges.foldl (fun acc p => acc + p.2.outgoing.length) 0 = _
  rw [foldl_add_map (fun p => p.2.outgoing.length) s.edges 0]
  simp

end KnowledgeGraphStorage

namespace KnowledgeGraphStorage

theorem mem_dedupAdj : ∀ (l : List Nat) (x : Nat), x ∈ dedupAdj l ↔ x ∈ l := by
  intro l
  induction l using dedupAdj.induct with
  | case1 => simp [dedupAdj]
  | case2 a => simp [dedupAdj]
  | case3 b l ih =>
    intro x
    rw [show dedupAdj (b :: b :: l) = dedupAdj (b :: l) from by simp [dedupAdj]]
    rw [ih]
    simp
  | case4 a b l hab ih =>
    intro x
    simp only [dedupAdj, if_neg hab]
    simp only [List.mem_cons]
    rw [ih]
    simp

theorem sorted_lt_dedupAdj : ∀ (l : List Nat), l.Sorted (· ≤ ·) →
    (dedupAdj l).Sorted (· < ·) := by
  intro l
  induction l using dedupAdj.induct with
  | case1 => simp [dedupAdj]
  | case2 a => simp [dedupAdj]
  | case3 b l ih =>
    intro hs
    rw [show dedupAdj (b :: b :: l) = dedupAdj (b :: l) from by simp [dedupAdj]]
    exact ih (List.sorted_cons.mp hs).2
  | case4 a b l hab ih =>
    intro hs
    simp only [dedupAdj, if_neg hab]
    rw [List.sorted_cons]
    obtain ⟨hhead, htail⟩ := List.sorted_cons.mp hs
    refine ⟨?_, ih htail⟩
    intro x hx
    have hxbl : x ∈ b :: l := (mem_dedupAdj _ _).mp hx
    have hax : a ≤ x := hhead x hxbl
    rcases List.mem_cons.mp hxbl with hxb | hxl
    · subst hxb
      exact lt_of_le_of_ne hax hab
    · have hb : a ≤ b := hhead b (by simp)
      have hbx : b ≤ x := (List.sorted_cons.mp htail).1 x hxl
      exact lt_of_lt_of_le (lt_of_le_of_ne hb hab) hbx

/-- C9: `get_neighbors` is sorted ascending, duplicate-free, its members
are exactly the union of the `to` endpoints of the node's outgoing edges
and the `from` endpoints of its incoming edges, and it is empty for a
node with no adjacency record. -/
theorem get_neighbors_spec (s : KnowledgeGraphStorage) (node_id : Nat) :
    (s.get_neighbors node_id).Sorted (· ≤ ·) ∧
    (s.get_neighbors node_id).Nodup ∧
    (∀ x, x ∈ s.get_neighbors node_id ↔
      ((∃ e ∈ ((s.get_adjacency_list node_id).getD AdjacencyList.new).outgoing,
          e.to_ = x) ∨
        (∃ e ∈ ((s.get_adjacency_list node_id).getD AdjacencyList.new).incoming,
          e.from_ = x))) ∧
    (s.get_adjacency_list node_id = none → s.get_neighbors node_id = []) := by
  cases h : s.get_adjacency_list node_id with
  | none =>
    refine ⟨?_, ?_, ?_, fun _ => ?_⟩ <;>
      simp [get_neighbors, h, AdjacencyList.new]
  | some adj =>
    have hsorted : (List.insertionSort (· ≤ ·)
        (adj.outgoing.map (·.to_) ++ adj.incoming.map (·.from_))).Sorted (· ≤ ·) :=
      List.sorted_insertionSort (· ≤ ·) _
    have hlt := sorted_lt_dedupAdj _ hsorted
    refine ⟨?_, ?_, ?_, fun hc => by simp [h] at hc⟩
    · simp only [get_neighbors, h]
      exact hlt.imp (fun hab => le_of_lt hab)
    · simp only [get_neighbors, h]
      exact hlt.imp (fun hab => ne_of_lt hab)
    · intro x
      simp only [get_neighbors, h]
      rw [mem_dedupAdj, List.mem_insertionSort]
      simp [h, eq_comm]

end KnowledgeGraphStorage

/-- Witness for the C9 theorem: instantiated at the three-node scenario
state and node 2, whose neighbors are exactly nodes 1 and 3. -/
theorem get_neighbors_spec_witness :
    (KnowledgeGraphStorage.threeNodeState.get_neighbors 2 = [1, 3]) ∧
    (KnowledgeGraphStorage.threeNodeState.get_neighbors 2).Sorted (· ≤ ·) ∧
    (KnowledgeGraphStorage.threeNodeState.get_neighbors 2).Nodup :=
  ⟨by decide,
    (KnowledgeGraphStorage.get_neighbors_spec KnowledgeGraphStorage.threeNodeState 2).1,
    (KnowledgeGraphStorage.get_neighbors_spec KnowledgeGraphStorage.threeNodeState 2).2.1⟩

/-! ## C7: the `add_chunk` text preview (`vector_search.rs`)

The Rust code computes

  let preview = if content.len() > 100 \x7b
      format!("\x7b\x7d...", &content[..97])
  \x7d else \x7b
      content.to_string()
  \x7d;

`content.len()` is the UTF-8 byte length and `&content[..97]` slices the
first 97 BYTES; Rust panics when byte offset 97 is not a character
boundary.  The content is modelled as its character sequence
(`List Char`), byte positions via `Char.utf8Size`, and the possible panic
as `Option`: `none` is the panic. -/

/-- UTF-8 byte length of a character sequence (`str::len`). -/
def utf8Len (cs : List Char) : Nat := (cs.map Char.utf8Size).sum

/-- The byte slice `&s[..n]` of a UTF-8 string: the prefix of characters
occupying exactly `n` bytes, or `none` (a panic) when `n` falls strictly
inside a character or beyond the end. -/
def byteSlicePrefix : List Char → Nat → Option (List Char)
  | _, 0 => some []
  | [], _ + 1 => none
  | c :: rest, n + 1 =>
      if c.utf8Size ≤ n + 1 then
        (byteSlicePrefix rest (n + 1 - c.utf8Size)).map (fun p => c :: p)
      else none

/-- The preview computation inside `add_chunk`: the content itself when it
is at most 100 bytes, otherwise the first 97 bytes followed by `"..."`;
`none` models the byte-slice panic. -/
def previewOfContent (content : List Char) : Option (List Char) :=
  if 100 < utf8Len content then
    (byteSlicePrefix content 97).map (fun p => p ++ "...".toList)
  else some content

/-- A content string on which the preview computation panics: 96 ASCII
characters, then a two-byte character `é` spanning bytes 96–97, then four
more ASCII bytes — 102 bytes in all, so the truncation branch is taken
and `&content[..97]` cuts `é` in half. -/
def panicContent : List Char := List.replicate 96 'a' ++ ('é' :: "xxxx".toList)

set_option maxRecDepth 4096 in
/-- C7 (divergence witness): `panicContent` is longer than 100 bytes, so
the preview takes the truncation branch, and the byte slice at 97 falls
inside the two-byte character — the computation panics (`none`) instead
of returning a preview, refuting totality of the preview computation (and
the blanket "no core operation panics on input").  On boundary-aligned
inputs the code does return the first 97 bytes plus `"..."`, and contents
of at most 100 bytes are returned unchanged, as the last two conjuncts
show on 101 and 3 `a`s. -/
theorem add_chunk_preview_panics_on_char_boundary :
    utf8Len panicContent = 102 ∧
    previewOfContent panicContent = none ∧
    previewOfContent (List.replicate 101 'a') =
      some (List.replicate 97 'a' ++ "...".toList) ∧
    previewOfContent (List.replicate 3 'a') = some (List.replicate 3 'a') := by
  refine ⟨by decide, by decide, by decide, by decide⟩

/-! ## Embedding queue (`embedding_queue.rs`)

Request ids (`Uuid::new_v4`) are modelled by a fresh-id counter; the
status map is an association list.  For the lifecycle claim the behaviour
of one request is modelled as a labelled transition system whose steps
are exactly the status-map writes the source performs, with the worker's
position inside `process_single_request` / `process_batch_request`
tracked by a phase. -/

/-- `enum RequestStatus`. -/
inductive RequestStatus where
  | queued
  | processing
  | completed
  | failed (msg : String)
  | cancelled
deriving DecidableEq, Repr

/-- Where the background worker stands with respect to one request's
message: not yet submitted; message sitting in the queue; the initial
cancelled-check of `process_single_request` passed — the read lock is
already released but the `Processing` write has not yet happened (check
and write are separate lock acquisitions with an await point between
them, so other operations can interleave); model call in flight (between
the `Processing` write and the final write); or done. -/
inductive WorkerPhase where
  | init | msgQueued | checked | processing | done
deriving DecidableEq, Repr

/-- The observable state of a single embedding request: its entry in the
status map (`none` = id absent) and the worker's phase for it. -/
structure ReqState where
  status : Option RequestStatus
  phase : WorkerPhase
deriving DecidableEq, Repr

/-- One step of the system as the source performs it, restricted to a
single request id:

* `submit` — `embed_text` / `embed_batch`: insert `Queued`, post the
  message to the worker.
* `cancelPublic` — `cancel_request`: posts `Cancel` and then
  unconditionally inserts `Cancelled` into the status map, whatever the
  current status (including `Completed`/`Failed`).
* `workerCancel` — the worker handling the `Cancel` message: sets
  `Cancelled` only when the current status is `Queued`.
* `workerStartCancelled` — `process_single_request`'s initial check
  (under a read lock) sees `Cancelled`: reply with a cancellation error
  and return.
* `workerCheckPassed` — the initial check does not see `Cancelled`; the
  read lock is dropped with the status unchanged.  The `Processing`
  write happens under a later, separate write lock, so a
  `cancel_request` can interleave between the two.
* `workerSetProcessing` — the separate write-lock acquisition inserts
  `Processing` unconditionally (a `Cancelled` written into the window
  since the check is overwritten).
* `workerFinishOk` / `workerFinishErr` — the model call returned: insert
  `Completed` / `Failed(msg)` unconditionally (a `cancel_request` that
  raced in during the call is overwritten). -/
inductive QStep : ReqState → ReqState → Prop where
  | submit : QStep ⟨none, .init⟩ ⟨some .queued, .msgQueued⟩
  | cancelPublic (st : Option RequestStatus) (ph : WorkerPhase) :
      QStep ⟨st, ph⟩ ⟨some .cancelled, ph⟩
  | workerCancel (st : Option RequestStatus) (ph : WorkerPhase) :
      QStep ⟨st, ph⟩ ⟨if st = some .queued then some .cancelled else st, ph⟩
  | workerStartCancelled :
      QStep ⟨some .cancelled, .msgQueued⟩ ⟨some .cancelled, .done⟩
  | workerCheckPassed (st : Option RequestStatus) (h : st ≠ some .cancelled) :
      QStep ⟨st, .msgQueued⟩ ⟨st, .checked⟩
  | workerSetProcessing (st : Option RequestStatus) :
      QStep ⟨st, .checked⟩ ⟨some .processing, .processing⟩
  | workerFinishOk (st : Option RequestStatus) :
      QStep ⟨st, .processing⟩ ⟨some .completed, .done⟩
  | workerFinishErr (st : Option RequestStatus) (msg : String) :
      QStep ⟨st, .processing⟩ ⟨some (.failed msg), .done⟩

/-- States reachable from the pristine state (id unknown, nothing
submitted) by the interleavings the source allows. -/
inductive QReachable : ReqState → Prop where
  | base : QReachable ⟨none, .init⟩
  | step {s s' : ReqState} : QReachable s → QStep s s' → QReachable s'

/-- The transition relation the claim asserts for the status map:
stutters, the submission `none → Queued`, `Queued → Processing`,
`Queued → Cancelled`, `Processing → Completed/Failed`, and nothing else —
in particular `Cancelled`, `Completed` and `Failed` are terminal. -/
def claimedTransition (a b : Option RequestStatus) : Prop :=
  a = b ∨
  (a = none ∧ b = some .queued) ∨
  (a = some .queued ∧ (b = some .processing ∨ b = some .cancelled)) ∨
  (a = some .processing ∧ (b = some .completed ∨ ∃ msg, b = some (.failed msg)))

/-- C3 (counterexample): the concrete interleaving submit → worker's
check passes → worker writes `Processing` → worker completes →
`cancel_request` drives the status map through `Queued`, `Processing`,
`Completed` and then `Cancelled`: the last step leaves `Completed`, a
claimed-terminal status, so the claimed transition relation is violated
at that step. -/
theorem cancel_after_completion_violates_terminality :
    QStep ⟨none, .init⟩ ⟨some .queued, .msgQueued⟩ ∧
    QStep ⟨some .queued, .msgQueued⟩ ⟨some .queued, .checked⟩ ∧
    QStep ⟨some .queued, .checked⟩ ⟨some .processing, .processing⟩ ∧
    QStep ⟨some .processing, .processing⟩ ⟨some .completed, .done⟩ ∧
    QStep ⟨some .completed, .done⟩ ⟨some .cancelled, .done⟩ ∧
    ¬ claimedTransition (some .completed) (some .cancelled) := by
  refine ⟨QStep.submit, QStep.workerCheckPassed _ (by simp), QStep.workerSetProcessing _,
    QStep.workerFinishOk _, QStep.cancelPublic _ _, ?_⟩
  rintro (h | ⟨h, -⟩ | ⟨h, -⟩ | ⟨h, -⟩) <;> simp at h

/-- The phase/status correlation maintained by every reachable state. -/
def QInv : ReqState → Prop
  | ⟨st, .init⟩ => st = none ∨ st = some .cancelled
  | ⟨st, .msgQueued⟩ => st = some .queued ∨ st = some .cancelled
  | ⟨st, .checked⟩ => st = some .queued ∨ st = some .cancelled
  | ⟨st, .processing⟩ => st = some .processing ∨ st = some .cancelled
  | ⟨st, .done⟩ =>
      st = some .completed ∨ (∃ msg, st = some (.failed msg)) ∨ st = some .cancelled

theorem qinv_of_reachable {s : ReqState} (h : QReachable s) : QInv s := by
  induction h with
  | base => simp [QInv]
  | step _ hstep ih =>
    cases hstep with
    | submit => simp [QInv]
    | cancelPublic st ph => cases ph <;> simp [QInv]
    | workerCancel st ph =>
      by_cases hq : st = some RequestStatus.queued
      · subst hq
        cases ph <;> simp_all [QInv]
      · simpa [QInv, hq] using ih
    | workerStartCancelled => simp [QInv]
    | workerCheckPassed st h =>
      rcases ih with hv | hv <;> simp [QInv, hv]
    | workerSetProcessing st => simp [QInv]
    | workerFinishOk st => simp [QInv]
    | workerFinishErr st msg => simp [QInv]

/-- C3 (amended): along every reachable interleaving, each status-map
update either obeys the claimed transition relation, or is one of three
cancellation races the source permits: (a) `cancel_request`
unconditionally overwriting the current status (possibly a terminal
`Completed`/`Failed`) with `Cancelled`; (b) the worker's `Processing`
write overwriting a `Cancelled` that landed between the initial check
(read lock) and that write (separate write lock) — `Cancelled →
Processing`; (c) the worker finishing a request cancelled mid-flight —
`Cancelled → Completed/Failed`, the model call being non-interruptible.
The worker's own writes otherwise respect `Queued → Processing →
Completed/Failed`, and the worker's `Cancel`-message handling moves only
`Queued` to `Cancelled`. -/
theorem queue_status_transitions_amended {s s' : ReqState}
    (hr : QReachable s) (hs : QStep s s') :
    claimedTransition s.status s'.status ∨
    s'.status = some .cancelled ∨
    (s.status = some .cancelled ∧
      (s'.status = some .processing ∨ s'.status = some .completed ∨
        ∃ msg, s'.status = some (.failed msg))) := by
  have hinv := qinv_of_reachable hr
  cases hs with
  | submit => exact Or.inl (Or.inr (Or.inl ⟨rfl, rfl⟩))
  | cancelPublic st ph => exact Or.inr (Or.inl rfl)
  | workerCancel st ph =>
    by_cases hq : st = some RequestStatus.queued
    · subst hq
      simp only [if_pos rfl]
      exact Or.inl (Or.inr (Or.inr (Or.inl ⟨rfl, Or.inr rfl⟩)))
    · simp only [if_neg hq]
      exact Or.inl (Or.inl rfl)
  | workerStartCancelled => exact Or.inl (Or.inl rfl)
  | workerCheckPassed st h => exact Or.inl (Or.inl rfl)
  | workerSetProcessing st =>
    rcases hinv with hv | hv
    · subst hv
      exact Or.inl (Or.inr (Or.inr (Or.inl ⟨rfl, Or.inl rfl⟩)))
    · subst hv
      exact Or.inr (Or.inr ⟨rfl, Or.inl rfl⟩)
  | workerFinishOk st =>
    rcases hinv with hv | hv
    · subst hv
      exact Or.inl (Or.inr (Or.inr (Or.inr ⟨rfl, Or.inl rfl⟩)))
    · subst hv
      exact Or.inr (Or.inr ⟨rfl, Or.inr (Or.inl rfl)⟩)
  | workerFinishErr st msg =>
    rcases hinv with hv | hv
    · subst hv
      exact Or.inl (Or.inr (Or.inr (Or.inr ⟨rfl, Or.inr ⟨msg, rfl⟩⟩)))
    · subst hv
      exact Or.inr (Or.inr ⟨rfl, Or.inr (Or.inr ⟨msg, rfl⟩)⟩)

/-- Witness for the amended C3 theorem: applied to the concrete reachable
step in which the worker writes `Processing` over a `Cancelled` that
arrived after its check passed — the state ⟨Cancelled, checked⟩ is
reached by submit, check-passed, `cancel_request`, and the step is the
worker's unconditional `Processing` write. -/
theorem queue_status_transitions_amended_witness :
    claimedTransition (ReqState.mk (some .cancelled) .checked).status
        (ReqState.mk (some .processing) .processing).status ∨
    (ReqState.mk (some .processing) .processing).status = some .cancelled ∨
    ((ReqState.mk (some .cancelled) .checked).status = some .cancelled ∧
      ((ReqState.mk (some .processing) .processing).status = some .processing ∨
        (ReqState.mk (some .processing) .processing).status = some .completed ∨
        ∃ msg, (ReqState.mk (some .processing) .processing).status
          = some (.failed msg))) :=
  queue_status_transitions_amended
    (QReachable.step
      (QReachable.step
        (QReachable.step QReachable.base QStep.submit)
        (QStep.workerCheckPassed (some .queued) (by decide)))
      (QStep.cancelPublic (some .queued) .checked))
    (QStep.workerSetProcessing (some .cancelled))

/-- `enum QueueMessage` — the messages consumed by the worker. -/
inductive QueueMessage where
  | single (id : Nat) (text : String)
  | batch (id : Nat) (texts : List String)
      (chunk_ids : List (Option Nat)) (object_ids : List (Option Nat))
  | cancel (id : Nat)
  | shutdown
deriving DecidableEq, Repr

/-- The submission-side state of `EmbeddingQueue`: the per-request status
map, the channel to the worker (as the list of pending messages plus a
liveness flag — `send` fails exactly when the worker has shut down), and
the generator of fresh request ids (`Uuid::new_v4`). -/
structure EmbeddingQueue where
  request_status : List (Nat × RequestStatus)
  messages : List QueueMessage
  workerAlive : Bool
  nextId : Nat
deriving DecidableEq, Repr

/-- `embed_batch` — check the three input lengths first and fail
synchronously (before any id allocation, status write or send) on
mismatch; otherwise allocate a fresh request id, record status `Queued`,
and post `Batch` to the worker.  The returned `Nat` identifies the
one-shot completion handle. -/
def EmbeddingQueue.embed_batch (q : EmbeddingQueue) (texts : List String)
    (chunk_ids object_ids : List (Option Nat)) :
    EmbeddingQueue × Except String Nat :=
  if texts.length ≠ chunk_ids.length ∨ texts.length ≠ object_ids.length then
    (q, .error "texts, chunk_ids, and object_ids must have the same length")
  else
    let request_id := q.nextId
    let q1 := { q with
      request_status := kvPut q.request_status request_id .queued,
      nextId := request_id + 1 }
    if q.workerAlive then
      ({ q1 with
          messages := q1.messages ++ [.batch request_id texts chunk_ids object_ids] },
        .ok request_id)
    else (q1, .error "Queue worker has shut down")

/-- C10: when the three input vectors do not all have the same length,
`embed_batch` fails synchronously with the invariant error and the queue
state is completely unchanged — no request id allocated, no status-map
entry, no message posted; when the lengths match (and the worker is
running, as it is until `shutdown` is posted), it records status `Queued`
under a fresh request id, posts exactly one `Batch` message, and returns
the completion handle. -/
theorem embed_batch_spec (q : EmbeddingQueue) (texts : List String)
    (chunk_ids object_ids : List (Option Nat)) :
    (¬ (texts.length = chunk_ids.length ∧ texts.length = object_ids.length) →
      q.embed_batch texts chunk_ids object_ids =
        (q, .error "texts, chunk_ids, and object_ids must have the same length")) ∧
    (texts.length = chunk_ids.length → texts.length = object_ids.length →
      q.workerAlive = true →
      (q.embed_batch texts chunk_ids object_ids).2 = .ok q.nextId ∧
      kvGet (q.embed_batch texts chunk_ids object_ids).1.request_status q.nextId =
        some .queued ∧
      (q.embed_batch texts chunk_ids object_ids).1.messages =
        q.messages ++ [.batch q.nextId texts chunk_ids object_ids] ∧
      (q.embed_batch texts chunk_ids object_ids).1.nextId = q.nextId + 1) := by
  constructor
  · intro hmm
    have hne : texts.length ≠ chunk_ids.length ∨ texts.length ≠ object_ids.length := by
      by_contra hc
      push_neg at hc
      exact hmm ⟨hc.1, hc.2⟩
    simp [EmbeddingQueue.embed_batch, if_pos hne]
  · intro h1 h2 halive
    have hne : ¬ (texts.length ≠ chunk_ids.length ∨ texts.length ≠ object_ids.length) := by
      push_neg
      exact ⟨h1, h2⟩
    simp [EmbeddingQueue.embed_batch, if_neg hne, halive, kvGet_kvPut_self]

/-- Witness for C10 at concrete inputs: a two-text batch with matching
id vectors succeeds on a fresh queue, and with a short `chunk_ids` vector
the same call fails leaving the queue untouched. -/
theorem embed_batch_spec_witness :
    (EmbeddingQueue.embed_batch ⟨[], [], true, 0⟩ ["a", "b"] [none, none]
        [none, none]).2 = .ok 0 ∧
    kvGet (EmbeddingQueue.embed_batch ⟨[], [], true, 0⟩ ["a", "b"] [none, none]
        [none, none]).1.request_status 0 = some .queued ∧
    EmbeddingQueue.embed_batch ⟨[], [], true, 0⟩ ["a", "b"] [none] [none, none] =
      (⟨[], [], true, 0⟩,
        .error "texts, chunk_ids, and object_ids must have the same length") :=
  ⟨((embed_batch_spec ⟨[], [], true, 0⟩ ["a", "b"] [none, none] [none, none]).2
      (by decide) (by decide) (by decide)).1,
    ((embed_batch_spec ⟨[], [], true, 0⟩ ["a", "b"] [none, none] [none, none]).2
      (by decide) (by decide) (by decide)).2.1,
    (embed_batch_spec ⟨[], [], true, 0⟩ ["a", "b"] [none] [none, none]).1 (by decide)⟩

/-! ## Schema validation (`schema.rs`, `schema_manager.rs`)

`validate_object_with_schema` and the property validator are embedded
from the source.  The regex engine (`regex::Regex`) is an external crate;
it is abstracted as a parameter `rc : String → Option (String → Bool)`:
`rc pattern` is `none` when the pattern fails to compile and otherwise
the compiled matcher.  `PropertySchema`'s `relationship`, `default_value`
and `metadata` fields and `SchemaDefinition`'s `id`, timestamps,
`edge_types` and `metadata` fields are never read by object validation
and are elided.  String lengths use the UTF-8 byte size, as `str::len`
does. -/

/-- `struct ValidationRule`. -/
structure ValidationRule where
  min_length : Option Nat
  max_length : Option Nat
  min_value : Option ℚ
  max_value : Option ℚ
  pattern : Option String
  allowed_values : Option (List String)
  required : Bool

mutual
/-- `enum PropertyType`; the `Object` payload maps property names to full
property schemas. -/
inductive PropertyType where
  | string
  | text
  | number
  | boolean
  | array (element_type : PropertyType)
  | object (props : List (String × PropertySchema))
  | reference (target : String)
  | enum (allowed : List String)
/-- `struct PropertySchema` (validation-relevant fields). -/
inductive PropertySchema where
  | mk (property_type : PropertyType) (description : String)
      (validation : Option ValidationRule)
end

/-- Field accessor for `PropertySchema.property_type`. -/
def PropertySchema.property_type : PropertySchema → PropertyType
  | .mk t _ _ => t

/-- Field accessor for `PropertySchema.validation`. -/
def PropertySchema.validation : PropertySchema → Option ValidationRule
  | .mk _ _ v => v

/-- `PropertyType::name`. -/
def PropertyType.name : PropertyType → String
  | .string => "string"
  | .text => "text"
  | .number => "number"
  | .boolean => "boolean"
  | .array _ => "array"
  | .object _ => "object"
  | .reference _ => "reference"
  | .enum _ => "enum"

/-- The type-name string of a JSON value used in mismatch messages. -/
def Json.typeName : Json → String
  | .str _ => "string"
  | .num _ => "number"
  | .bool _ => "boolean"
  | .arr _ => "array"
  | .obj _ => "object"
  | .null => "null"

/-- `enum ValidationErrorType`. -/
inductive ValidationErrorType where
  | missingRequired | typeMismatch | invalidValue | invalidReference | validationRuleFailed
deriving DecidableEq, Repr

/-- `struct ValidationError`. -/
structure ValidationError where
  property : String
  message : String
  error_type : ValidationErrorType
deriving DecidableEq, Repr

/-- `struct ValidationWarning`. -/
structure ValidationWarning where
  property : String
  message : String
deriving DecidableEq, Repr

/-- `struct ValidationResult`. -/
structure ValidationResult where
  valid : Bool
  errors : List ValidationError
  warnings : List ValidationWarning
deriving DecidableEq, Repr

/-- `ValidationResult::valid()` — the all-clear starting result. -/
def ValidationResult.startValid : ValidationResult :=
  { valid := true, errors := [], warnings := [] }

/-- `ValidationResult::add_error` — push and clear the flag. -/
def ValidationResult.add_error (r : ValidationResult) (e : ValidationError) : ValidationResult :=
  { r with errors := r.errors ++ [e], valid := false }

/-- `ValidationResult::add_warning`. -/
def ValidationResult.add_warning (r : ValidationResult) (w : ValidationWarning) :
    ValidationResult :=
  { r with warnings := r.warnings ++ [w] }

/-- `struct ObjectTypeSchema` (validation-relevant fields). -/
structure ObjectTypeSchema where
  name : String
  description : String
  properties : List (String × PropertySchema)
  required_properties : List String
  allowed_edges : List String
  inheritance : Option String

/-- `struct SchemaDefinition` (validation-relevant fields). -/
structure SchemaDefinition where
  name : String
  version : String
  description : String
  object_types : List (String × ObjectTypeSchema)

/-- `apply_validation_rules` — string length / pattern / allowed-values
rules on string values, numeric range rules on numbers, first failure
wins. -/
def apply_validation_rules (rc : String → Option (String → Bool))
    (property_name : String) (value : Json) (validation : ValidationRule) :
    Except ValidationError Unit :=
  (match value with
    | .str s => do
        (match validation.min_length with
          | some min_len =>
              if s.utf8ByteSize < min_len then
                .error ⟨property_name,
                  "Property " ++ property_name ++ " is too short. Minimum length: "
                    ++ toString min_len, .validationRuleFailed⟩
              else pure ()
          | none => pure ())
        (match validation.max_length with
          | some max_len =>
              if max_len < s.utf8ByteSize then
                .error ⟨property_name,
                  "Property " ++ property_name ++ " is too long. Maximum length: "
                    ++ toString max_len, .validationRuleFailed⟩
              else pure ()
          | none => pure ())
        (match validation.pattern with
          | some pattern =>
              match rc pattern with
              | none =>
                  .error ⟨property_name,
                    "Invalid regex pattern in schema: " ++ pattern,
                    .validationRuleFailed⟩
              | some matcher =>
                  if !(matcher s) then
                    .error ⟨property_name,
                      "Property " ++ property_name
                        ++ " does not match required pattern: " ++ pattern,
                      .validationRuleFailed⟩
                  else pure ()
          | none => pure ())
        (match validation.allowed_values with
          | some allowed =>
              if !(allowed.contains s) then
                .error ⟨property_name,
                  "Property " ++ property_name ++ " has invalid value.",
                  .validationRuleFailed⟩
              else pure ()
          | none => pure ())
    | _ => pure ()) >>= fun _ =>
  (match value with
    | .num n => do
        (match validation.min_value with
          | some min_val =>
              if n < min_val then
                .error ⟨property_name,
                  "Property " ++ property_name ++ " is too small. Minimum value: "
                    ++ toString min_val, .validationRuleFailed⟩
              else pure ()
          | none => pure ())
        (match validation.max_value with
          | some max_val =>
              if max_val < n then
                .error ⟨property_name,
                  "Property " ++ property_name ++ " is too large. Maximum value: "
                    ++ toString max_val, .validationRuleFailed⟩
              else pure ()
          | none => pure ())
    | _ => pure ())

theorem sizeOf_lt_of_kvGet {ν : Type} [SizeOf ν] (l : List (String × ν)) (k : String)
    (v : ν) (h : kvGet l k = some v) : sizeOf v < sizeOf l := by
  induction l with
  | nil => simp [kvGet] at h
  | cons p rest ih =>
    obtain ⟨a, b⟩ := p
    by_cases hp : a = k
    · simp [kvGet, hp] at h
      subst h
      simp
      omega
    · simp [kvGet, hp] at h
      have := ih h
      simp
      omega

mutual
/-- `validate_property_value` — type check, then rules, then recursion
into array elements and declared object sub-properties, first failure
wins. -/
def validate_property_value (rc : String → Option (String → Bool))
    (property_name : String) (value : Json) (schema : PropertySchema) :
    Except ValidationError Unit :=
  let is_type_valid : Bool :=
    match schema.property_type, value with
    | .string, .str _ => true
    | .text, .str _ => true
    | .number, .num _ => true
    | .boolean, .bool _ => true
    | .array _, .arr _ => true
    | .object _, .obj _ => true
    | .reference _, .str _ => true
    | .enum allowed, .str s => allowed.contains s
    | _, _ => false
  if !is_type_valid then
    .error ⟨property_name,
      "Property " ++ property_name ++ " has incorrect type. Expected: "
        ++ schema.property_type.name ++ ", Got: " ++ value.typeName,
      .typeMismatch⟩
  else
    (match schema.validation with
      | some validation => apply_validation_rules rc property_name value validation
      | none => pure ()) >>= fun _ =>
    (match schema.property_type, value with
      | .array element_type, .arr arr =>
          validateElements rc property_name element_type arr 0
      | _, _ => pure ()) >>= fun _ =>
    (match schema.property_type, value with
      | .object obj_schema, .obj obj =>
          validateObjectProps rc property_name obj obj_schema
      | _, _ => pure ())
termination_by (sizeOf value, 0)

/-- The element loop of `validate_property_value`'s array case: each
element is validated against a fresh schema for the element type with no
validation rule, named `name[i]`. -/
def validateElements (rc : String → Option (String → Bool)) (property_name : String)
    (element_type : PropertyType) (elems : List Json) (i : Nat) :
    Except ValidationError Unit :=
  match elems with
  | [] => pure ()
  | x :: rest =>
      validate_property_value rc (property_name ++ "[" ++ toString i ++ "]") x
          (.mk element_type "Array element" none) >>= fun _ =>
        validateElements rc property_name element_type rest (i + 1)
termination_by (sizeOf elems, 0)

/-- The sub-property loop of `validate_property_value`'s object case:
each declared sub-property present in the value is validated against its
schema, named `name.key`. -/
def validateObjectProps (rc : String → Option (String → Bool)) (property_name : String)
    (obj : List (String × Json)) (props : List (String × PropertySchema)) :
    Except ValidationError Unit :=
  match props with
  | [] => pure ()
  | (key, prop_schema) :: rest =>
      (match h : kvGet obj key with
        | some prop_value =>
            validate_property_value rc (property_name ++ "." ++ key) prop_value prop_schema
        | none => pure ()) >>= fun _ =>
      validateObjectProps rc property_name obj rest
termination_by (sizeOf obj, sizeOf props)
decreasing_by
  · simp_wf
    exact Prod.Lex.left _ _ (sizeOf_lt_of_kvGet obj key prop_value h)
  · simp_wf
    exact Prod.Lex.right _ (by omega)
end

/-- The required-properties loop of `validate_object_with_schema`: for
each required property other than the implicit `name`, emit a
missing-required error when it is absent from the object's property
map. -/
def requiredPass (propsMap : List (String × Json)) (r : ValidationResult) :
    List String → ValidationResult
  | [] => r
  | required_prop :: rest =>
      if required_prop = "name" then requiredPass propsMap r rest
      else if (propsMap.map Prod.fst).contains required_prop then
        requiredPass propsMap r rest
      else
        requiredPass propsMap
          (r.add_error ⟨required_prop,
            "Missing required property: " ++ required_prop, .missingRequired⟩)
          rest

/-- The present-properties loop of `validate_object_with_schema`: each
present property known to the schema is checked (an error on failure),
unknown properties only warn. -/
def propsPass (rc : String → Option (String → Bool))
    (sprops : List (String × PropertySchema)) (r : ValidationResult) :
    List (String × Json) → ValidationResult
  | [] => r
  | kv :: rest =>
      match kvGet sprops kv.1 with
      | some prop_schema =>
          match validate_property_value rc kv.1 kv.2 prop_schema with
          | .error e => propsPass rc sprops (r.add_error e) rest
          | .ok _ => propsPass rc sprops r rest
      | none =>
          propsPass rc sprops
            (r.add_warning ⟨kv.1, "Property " ++ kv.1 ++ " is not defined in schema"⟩)
            rest

/-- `validate_object_with_schema` — unknown object type: one error, no
further checks; otherwise the required-property pass (skipping the
implicit `name`) followed by the per-present-property pass (unknown
properties warn, known ones are checked). -/
def validate_object_with_schema (rc : String → Option (String → Bool))
    (object : ObjectMetadata) (schema : SchemaDefinition) : ValidationResult :=
  match kvGet schema.object_types object.object_type with
  | none =>
      ValidationResult.startValid.add_error
        ⟨"object_type", "Unknown object type: " ++ object.object_type, .invalidValue⟩
  | some object_schema =>
      let propsMap := (object.properties.asObject).getD []
      let r := requiredPass propsMap ValidationResult.startValid
        object_schema.required_properties
      match object.properties.asObject with
      | some props => propsPass rc object_schema.properties r props
      | none => r

/-- The missing-required errors `validate_object_with_schema` emits, in
emission order. -/
def missingErrors (propsMap : List (String × Json)) : List String → List ValidationError
  | [] => []
  | required_prop :: rest =>
      if required_prop = "name" then missingErrors propsMap rest
      else if (propsMap.map Prod.fst).contains required_prop then
        missingErrors propsMap rest
      else
        ⟨required_prop, "Missing required property: " ++ required_prop,
          .missingRequired⟩ :: missingErrors propsMap rest

/-- The per-property errors `validate_object_with_schema` emits, in
emission order. -/
def propErrors (rc : String → Option (String → Bool))
    (sprops : List (String × PropertySchema)) : List (String × Json) → List ValidationError
  | [] => []
  | kv :: rest =>
      match kvGet sprops kv.1 with
      | some prop_schema =>
          match validate_property_value rc kv.1 kv.2 prop_schema with
          | .error e => e :: propErrors rc sprops rest
          | .ok _ => propErrors rc sprops rest
      | none => propErrors rc sprops rest

theorem requiredPass_spec (reqs : List String) (propsMap : List (String × Json))
    (r : ValidationResult) :
    (requiredPass propsMap r reqs).errors = r.errors ++ missingErrors propsMap reqs ∧
    (requiredPass propsMap r reqs).valid =
      (r.valid && (missingErrors propsMap reqs).isEmpty) ∧
    (requiredPass propsMap r reqs).warnings = r.warnings := by
  induction reqs generalizing r with
  | nil => simp [requiredPass, missingErrors]
  | cons a t ih =>
    by_cases ha : a = "name"
    · simp only [requiredPass, missingErrors, if_pos ha]
      exact ih r
    · by_cases hc : (propsMap.map Prod.fst).contains a = true
      · simp only [requiredPass, missingErrors, if_neg ha, if_pos hc]
        exact ih r
      · simp only [requiredPass, missingErrors, if_neg ha, if_neg hc]
        have ihh := ih (r.add_error
          ⟨a, "Missing required property: " ++ a, .missingRequired⟩)
        rw [ihh.1, ihh.2.1, ihh.2.2]
        simp [ValidationResult.add_error]

theorem propsPass_spec (rc : String → Option (String → Bool))
    (sprops : List (String × PropertySchema)) (props : List (String × Json))
    (r : ValidationResult) :
    (propsPass rc sprops r props).errors = r.errors ++ propErrors rc sprops props ∧
    (propsPass rc sprops r props).valid =
      (r.valid && (propErrors rc sprops props).isEmpty) := by
  induction props generalizing r with
  | nil => simp [propsPass, propErrors]
  | cons kv t ih =>
    cases hk : kvGet sprops kv.1 with
    | none =>
      simp only [propsPass, propErrors, hk]
      have ihh := ih (r.add_warning
        ⟨kv.1, "Property " ++ kv.1 ++ " is not defined in schema"⟩)
      rw [ihh.1, ihh.2]
      simp [ValidationResult.add_warning]
    | some prop_schema =>
      cases hv : validate_property_value rc kv.1 kv.2 prop_schema with
      | error e =>
        simp only [propsPass, propErrors, hk, hv]
        have ihh := ih (r.add_error e)
        rw [ihh.1, ihh.2]
        simp [ValidationResult.add_error]
      | ok u =>
        simp only [propsPass, propErrors, hk, hv]
        exact ih r

theorem missingErrors_eq_nil_iff (propsMap : List (String × Json)) (reqs : List String) :
    missingErrors propsMap reqs = [] ↔
      ∀ req ∈ reqs, req ≠ "name" →
        (propsMap.map Prod.fst).contains req = true := by
  induction reqs with
  | nil => simp [missingErrors]
  | cons a t ih =>
    by_cases ha : a = "name"
    · simp only [missingErrors, if_pos ha]
      rw [ih]
      subst ha
      simp
    · by_cases hc : (propsMap.map Prod.fst).contains a = true
      · simp only [missingErrors, if_neg ha, if_pos hc]
        rw [ih]
        constructor
        · intro hall req hreq hne
          rcases List.mem_cons.mp hreq with h | h
          · subst h; exact hc
          · exact hall req h hne
        · intro hall req hreq hne
          exact hall req (List.mem_cons_of_mem a hreq) hne
      · simp only [missingErrors, if_neg ha, if_neg hc]
        constructor
        · intro hcontr; cases hcontr
        · intro hall
          exact absurd (hall a (List.mem_cons_self a t) ha) hc

theorem propErrors_eq_nil_iff (rc : String → Option (String → Bool))
    (sprops : List (String × PropertySchema)) (props : List (String × Json)) :
    propErrors rc sprops props = [] ↔
      ∀ kv ∈ props, ∀ ps, kvGet sprops kv.1 = some ps →
        validate_property_value rc kv.1 kv.2 ps = .ok () := by
  induction props with
  | nil => simp [propErrors]
  | cons kv t ih =>
    cases hk : kvGet sprops kv.1 with
    | none =>
      simp only [propErrors, hk]
      rw [ih]
      constructor
      · intro hall kv' hkv' ps hps
        rcases List.mem_cons.mp hkv' with h | h
        · subst h; rw [hk] at hps; cases hps
        · exact hall kv' h ps hps
      · intro hall kv' hkv' ps hps
        exact hall kv' (List.mem_cons_of_mem kv hkv') ps hps
    | some prop_schema =>
      cases hv : validate_property_value rc kv.1 kv.2 prop_schema with
      | error e =>
        simp only [propErrors, hk, hv]
        constructor
        · intro hcontr; cases hcontr
        · intro hall
          have := hall kv (List.mem_cons_self kv t) prop_schema hk
          rw [hv] at this
          cases this
      | ok u =>
        simp only [propErrors, hk, hv]
        rw [ih]
        constructor
        · intro hall kv' hkv' ps hps
          rcases List.mem_cons.mp hkv' with h | h
          · subst h
            rw [hk] at hps
            cases hps
            cases u
            exact hv
          · exact hall kv' h ps hps
        · intro hall kv' hkv' ps hps
          exact hall kv' (List.mem_cons_of_mem kv hkv') ps hps

/-- C4: for an object whose type is present in the schema,
`validate_object_with_schema` is valid exactly when every required
property other than the implicit `name` is present and every present
property known to the schema passes its type check and validation rules
(unknown present properties only warn), and `valid` always equals
`errors.is_empty()`; for an object whose type is absent the result
carries exactly one error, no warnings, and no further checks run. -/
theorem validate_object_spec (rc : String → Option (String → Bool))
    (object : ObjectMetadata) (schema : SchemaDefinition) :
    (∀ os, kvGet schema.object_types object.object_type = some os →
      (((validate_object_with_schema rc object schema).valid = true ↔
          ((∀ req ∈ os.required_properties, req ≠ "name" →
              ((((object.properties.asObject).getD []).map Prod.fst).contains req
                = true)) ∧
            (∀ kv ∈ (object.properties.asObject).getD [], ∀ ps,
              kvGet os.properties kv.1 = some ps →
              validate_property_value rc kv.1 kv.2 ps = .ok ()))) ∧
        ((validate_object_with_schema rc object schema).valid =
          (validate_object_with_schema rc object schema).errors.isEmpty))) ∧
    (kvGet schema.object_types object.object_type = none →
      ((validate_object_with_schema rc object schema).errors.length = 1 ∧
        (validate_object_with_schema rc object schema).warnings = [] ∧
        (validate_object_with_schema rc object schema).valid = false)) := by
  constructor
  · intro os hos
    cases hp : object.properties.asObject with
    | some props =>
      have hres : validate_object_with_schema rc object schema =
          propsPass rc os.properties
            (requiredPass props ValidationResult.startValid os.required_properties)
            props := by
        simp [validate_object_with_schema, hos, hp]
      have hreq := requiredPass_spec os.required_properties props
        ValidationResult.startValid
      have hprops := propsPass_spec rc os.properties props
        (requiredPass props ValidationResult.startValid os.required_properties)
      have herrs : (validate_object_with_schema rc object schema).errors =
          missingErrors props os.required_properties ++ propErrors rc os.properties props := by
        rw [hres, hprops.1, hreq.1]
        simp [ValidationResult.startValid]
      have hvalid : (validate_object_with_schema rc object schema).valid =
          ((missingErrors props os.required_properties).isEmpty &&
            (propErrors rc os.properties props).isEmpty) := by
        rw [hres, hprops.2, hreq.2.1]
        simp [ValidationResult.startValid]
      constructor
      · rw [hvalid]
        rw [Bool.and_eq_true, List.isEmpty_iff, List.isEmpty_iff]
        rw [missingErrors_eq_nil_iff, propErrors_eq_nil_iff]
        simp [hp]
      · rw [hvalid, herrs]
        cases missingErrors props os.required_properties <;> simp
    | none =>
      have hres : validate_object_with_schema rc object schema =
          requiredPass [] ValidationResult.startValid os.required_properties := by
        simp [validate_object_with_schema, hos, hp]
      have hreq := requiredPass_spec os.required_properties []
        ValidationResult.startValid
      have herrs : (validate_object_with_schema rc object schema).errors =
          missingErrors [] os.required_properties := by
        rw [hres, hreq.1]
        simp [ValidationResult.startValid]
      have hvalid : (validate_object_with_schema rc object schema).valid =
          (missingErrors [] os.required_properties).isEmpty := by
        rw [hres, hreq.2.1]
        simp [ValidationResult.startValid]
      constructor
      · rw [hvalid]
        rw [List.isEmpty_iff, missingErrors_eq_nil_iff]
        simp [hp]
      · rw [hvalid, herrs]
  · intro hnone
    simp [validate_object_with_schema, hnone, ValidationResult.add_error,
      ValidationResult.startValid]

/-- A regex oracle for concrete instantiations: every pattern compiles and
matches everything. -/
def rcAll : String → Option (String → Bool) := fun _ => some (fun _ => true)

/-- A `spell` object-type schema: required numeric `level` in `[0, 9]`,
enum `school`. -/
def spellTypeSchema : ObjectTypeSchema :=
  { name := "spell", description := "A magical spell",
    properties :=
      [("level", .mk .number "Spell level"
          (some { min_length := none, max_length := none, min_value := some 0,
                  max_value := some 9, pattern := none, allowed_values := none,
                  required := true })),
        ("school", .mk (.enum ["Evocation", "Abjuration"]) "School of magic" none)],
    required_properties := ["level"],
    allowed_edges := [], inheritance := none }

/-- A one-type schema holding `spell`. -/
def spellSchema : SchemaDefinition :=
  { name := "default", version := "1.0.0",
    description := "Schema with one spell type",
    object_types := [("spell", spellTypeSchema)] }

/-- A valid spell object: `level` 3, `school` Evocation. -/
def fireballObject : ObjectMetadata :=
  { id := 10, object_type := "spell", schema_name := none, name := "Fireball",
    description := none, created_at := 0, updated_at := 0, tags := [],
    properties := .obj [("level", .num 3), ("school", .str "Evocation")] }

/-- Witness for C4: the theorem applied to the concrete spell schema and
the Fireball object, whose type is present, discharging the lookup
hypothesis by computation. -/
theorem validate_object_spec_witness :
    (kvGet spellSchema.object_types fireballObject.object_type
        = some spellTypeSchema) ∧
    (((validate_object_with_schema rcAll fireballObject spellSchema).valid = true ↔
        ((∀ req ∈ spellTypeSchema.required_properties, req ≠ "name" →
            ((((fireballObject.properties.asObject).getD []).map Prod.fst).contains req
              = true)) ∧
          (∀ kv ∈ (fireballObject.properties.asObject).getD [], ∀ ps,
            kvGet spellTypeSchema.properties kv.1 = some ps →
            validate_property_value rcAll kv.1 kv.2 ps = .ok ()))) ∧
      ((validate_object_with_schema rcAll fireballObject spellSchema).valid =
        (validate_object_with_schema rcAll fireballObject spellSchema).errors.isEmpty)) :=
  ⟨rfl, (validate_object_spec rcAll fireballObject spellSchema).1 spellTypeSchema rfl⟩
